import Mathlib

/-!
Verification of the generic metric sink (`sinks/generic/generic.go`):
a metric-export adapter that converts internal metric samples to an
external JSON record shape and delivers them in batches over HTTP.

The Go code is shallowly embedded: slices become lists, the batching
loop becomes a fuel-indexed recursion whose `fuelOut` outcome marks an
execution that has not finished within the given iteration bound (so
an execution returning `fuelOut` for every fuel is a non-terminating
loop), and the HTTP transport collaborator (`vhttp.PostHelper`) is an
oracle `deliver` deciding success or failure of each delivery call.
-/

/-- Carrier for Go `float64` values.  The adapter performs no floating
point arithmetic: metric values are carried through unchanged and the
only conversion is `float64(timestamp)`, which we model as an embedding
(`float64OfInt64`).  No claim below depends on rounding, so any type
with decidable equality serves as the carrier. -/
abbrev F64 := Int

/-- Model of the Go conversion `float64(t)` applied to an `int64`
timestamp.  Modelled as an embedding since the adapter never inspects
the result. -/
def float64OfInt64 (t : Int) : F64 := t

/-- Opaque handle standing for a `*logrus.Logger`. -/
structure Logger where
  id : Nat
deriving DecidableEq

/-- Opaque handle standing for an `*http.Client`. -/
structure HttpClient where
  id : Nat
deriving DecidableEq

/-- Opaque handle standing for a `*trace.Client`. -/
structure TraceClient where
  id : Nat
deriving DecidableEq

/-- Model of a Go `context.Context` as far as this adapter observes it:
`Ctx.todo` is the fresh `context.TODO()` value the code creates, and
`Ctx.other` stands for any caller-supplied context distinct from it. -/
inductive Ctx where
  | todo : Ctx
  | other : Ctx
deriving DecidableEq

/-- Model of a Go `error` value (`nil` becomes `none`). -/
structure GoError where
  msg : String
deriving DecidableEq

/-- Metric type enumeration (`samplers.MetricType`); the sink carries it
through `Flush` unchanged and never branches on it. -/
inductive MetricType where
  | counter : MetricType
  | gauge : MetricType
  | status : MetricType
deriving DecidableEq

/-- Embedding of `samplers.InterMetric`: one internal metric sample. -/
structure InterMetric where
  Name : String
  Timestamp : Int
  Value : F64
  Tags : List String
  «Type» : MetricType
deriving DecidableEq

/-- A tag mapping, embedded as an association list with unique keys in
insertion order; `tagInsert` gives it Go-map update semantics. -/
abbrev TagMap := List (String × String)

/-- Embedding of `GenericMetric`: one external record. -/
structure GenericMetric where
  Metric : String
  Value : F64
  Source : String
  At : F64
  Tags : TagMap
deriving DecidableEq

/-- Embedding of `GenericMetrics`: one external batch. -/
structure GenericMetrics where
  Metrics : List GenericMetric
  Environment : String
  Namespace : String
deriving DecidableEq

/-- Embedding of `GenericMetricSink`. -/
structure GenericMetricSink where
  log : Logger
  traceClient : Option TraceClient
  httpClient : HttpClient
  Tags : List String
  Endpoint : String
  BatchSize : Int
  Source : String
  Environment : String
  Namespace : String
deriving DecidableEq

/-- Embedding of `NewGenericMetricSink`: builds the sink from its
configuration and returns it together with the (always nil) error. -/
def NewGenericMetricSink (log : Logger) (httpClient : HttpClient)
    (tags : List String) (endpoint : String) (batchSize : Int)
    (source : String) (environment : String) («namespace» : String) :
    GenericMetricSink × Option GoError :=
  (⟨log, none, httpClient, tags, endpoint, batchSize, source, environment, «namespace»⟩,
    none)

/-- Embedding of `GenericMetricSink.Name`. -/
def GenericMetricSink.Name (_gm : GenericMetricSink) : String := "generic"

/-- Embedding of `GenericMetricSink.Start`: the method writes the
`traceClient` field and returns nil, so we model it as returning the
updated sink together with the error value. -/
def GenericMetricSink.Start (gm : GenericMetricSink) (client : TraceClient) :
    GenericMetricSink × Option GoError :=
  ({ gm with traceClient := some client }, none)

/-- Splits a tag string on its first colon; a string with no colon
yields the whole string as key and an empty value.
Modelled from the spec: `samplers.ParseTagSliceToMap` is not part of
this component's source; the spec describes its splitting rule. -/
def splitFirstColon (s : String) : String × String :=
  let cs := s.toList
  if cs.contains ':' then
    (String.mk (cs.takeWhile (fun c => c ≠ ':')),
      String.mk ((cs.dropWhile (fun c => c ≠ ':')).drop 1))
  else
    (s, "")

/-- Go-map insertion on the association-list embedding: a later entry
with a duplicate key overwrites the earlier one in place, otherwise the
entry is appended. -/
def tagInsert (m : TagMap) (kv : String × String) : TagMap :=
  if (List.any m (fun p => p.1 = kv.1)) then
    List.map (fun p => if p.1 = kv.1 then (p.1, kv.2) else p) m
  else
    m ++ [kv]

/-- Builds a tag mapping from an ordered list of `key:value` strings.
Modelled from the spec: `samplers.ParseTagSliceToMap` is not part of
this component's source; the spec states that each string is split on
its first colon and that later entries with a duplicate key overwrite
earlier ones. -/
def ParseTagSliceToMap (tags : List String) : TagMap :=
  List.foldl (fun m t => tagInsert m (splitFirstColon t)) [] tags

/-- Looks a key up in a tag mapping. -/
def tagLookup (m : TagMap) (k : String) : Option String :=
  Option.map Prod.snd (List.find? (fun p => p.1 = k) m)

/-- Embedding of `GenericMetricSink.convertInterToGeneric`: maps each
sample to one external record, parsing the sample tags followed by the
sink's server tags, and wraps the records with the configured
environment and namespace. -/
def GenericMetricSink.convertInterToGeneric (gm : GenericMetricSink)
    (metrics : List InterMetric) : GenericMetrics :=
  { Metrics := List.map (fun metric =>
      { Metric := metric.Name
        Value := metric.Value
        Source := gm.Source
        At := float64OfInt64 metric.Timestamp
        Tags := ParseTagSliceToMap (metric.Tags ++ gm.Tags) }) metrics
    Environment := gm.Environment
    Namespace := gm.Namespace }

/-- Logging level of the outcome record written by `flushBatch`. -/
inductive LogLevel where
  | info : LogLevel
  | warn : LogLevel
deriving DecidableEq

/-- One log entry written by `flushBatch`: the level and the sample
count of the chunk it reports on. -/
structure LogEntry where
  level : LogLevel
  count : Nat
deriving DecidableEq

/-- One invocation of the transport collaborator (`vhttp.PostHelper`):
the chunk of samples being flushed, the context value handed to the
transport, the converted payload, and whether the transport reported
success. -/
structure DeliveryCall where
  batch : List InterMetric
  ctx : Ctx
  payload : GenericMetrics
  ok : Bool
deriving DecidableEq

/-- Embedding of `GenericMetricSink.flushBatch`: converts the chunk,
posts it with a fresh `context.TODO()` context, and logs the outcome at
info level on success and warning level on failure.  The transport is
the oracle `deliver`; the method writes no sink field, so it returns the
sink unchanged alongside the call record and the log entry. -/
def GenericMetricSink.flushBatch (deliver : GenericMetrics → Bool)
    (gm : GenericMetricSink) (metrics : List InterMetric) :
    GenericMetricSink × DeliveryCall × LogEntry :=
  let genMetrics := gm.convertInterToGeneric metrics
  let ok := deliver genMetrics
  (gm, ⟨metrics, Ctx.todo, genMetrics, ok⟩,
    if ok then ⟨LogLevel.info, metrics.length⟩ else ⟨LogLevel.warn, metrics.length⟩)

/-- Outcome of running the batching loop of `Flush` under a fuel bound:
`done` carries the delivery calls issued, the log entries written and
the returned error; `panicked` marks the Go slice-bounds panic raised by
`metrics[:b]` with a negative bound; `fuelOut` marks an execution that
has not finished within the given number of loop iterations. -/
inductive FlushResult where
  | done : List DeliveryCall → List LogEntry → Option GoError → FlushResult
  | panicked : FlushResult
  | fuelOut : FlushResult
deriving DecidableEq

/-- The delivery calls of a `FlushResult` (empty unless `done`). -/
def FlushResult.calls : FlushResult → List DeliveryCall
  | FlushResult.done cs _ _ => cs
  | _ => []

/-- Prepends one iteration's delivery call and log entry to the outcome
of the remaining iterations (pure observational bookkeeping for the
loop of `Flush`). -/
def flushStepCombine (step : DeliveryCall × LogEntry) :
    GenericMetricSink × FlushResult → GenericMetricSink × FlushResult
  | (gm2, FlushResult.done calls logs err) =>
    (gm2, FlushResult.done (step.1 :: calls) (step.2 :: logs) err)
  | (gm2, other) => (gm2, other)

/-- Embedding of `GenericMetricSink.Flush`: repeatedly slices off the
first `min(len(metrics), BatchSize)` samples and hands them to
`flushBatch`, until no samples remain, then returns nil.  The context
argument is received but, as in the source, never used by the loop.
`fuel` bounds the number of loop iterations; the sink is threaded
through to record that no iteration writes a sink field. -/
def GenericMetricSink.Flush (deliver : GenericMetrics → Bool) :
    GenericMetricSink → Ctx → Nat → List InterMetric →
      GenericMetricSink × FlushResult
  | gm, _, _, [] => (gm, FlushResult.done [] [] none)
  | gm, _, 0, _ :: _ => (gm, FlushResult.fuelOut)
  | gm, ctx, fuel + 1, x :: xs =>
    let metrics := x :: xs
    let batchSize : Int :=
      if (metrics.length : Int) > gm.BatchSize then gm.BatchSize
      else (metrics.length : Int)
    if batchSize < 0 then
      (gm, FlushResult.panicked)
    else
      let batch := metrics.take batchSize.toNat
      let rest := metrics.drop batchSize.toNat
      let step := GenericMetricSink.flushBatch deliver gm batch
      flushStepCombine step.2
        (GenericMetricSink.Flush deliver step.1 ctx fuel rest)

/-- Embedding of `GenericMetricSink.FlushOtherSamples`: a no-op. -/
def GenericMetricSink.FlushOtherSamples (gm : GenericMetricSink)
    (_ctx : Ctx) : GenericMetricSink :=
  gm

/-- The contiguous front-to-back partition of a list into chunks of at
most `b` elements, describing the slices the `Flush` loop takes (the
`b.max 1` in the recursive call only serves termination and equals `b`
whenever `0 < b`, the regime in which the description is used). -/
def chunksOf (b : Nat) : List α → List (List α)
  | [] => []
  | x :: xs =>
    (x :: xs).take b :: chunksOf b ((x :: xs).drop (b.max 1))
termination_by l => l.length
decreasing_by
  have h1 : 1 ≤ b.max 1 := Nat.le_max_right b 1
  simp only [List.length_drop, List.length_cons]
  omega

/-- The tag-mapping semantics exactly as the spec words it, for
refinement comparison: the value of key `k` is taken from the last
string in the list whose first-colon split yields key `k` (later
entries overwrite earlier ones), and is absent when no string has that
key. -/
def specTagValue (tags : List String) (k : String) : Option String :=
  Option.map (fun s => (splitFirstColon s).2)
    (List.find? (fun s => (splitFirstColon s).1 = k) tags.reverse)

/-- A concrete sink configuration used to instantiate theorems with
hypotheses; its single server tag collides with `sampleMetricKV`. -/
def sampleSink : GenericMetricSink :=
  ⟨⟨0⟩, none, ⟨0⟩, ["k:v2"], "http://collector.example/api", 2,
    "foo-source", "bar-environment", "baz-namespace"⟩

/-- A concrete sample whose tag key collides with the server tag of
`sampleSink`. -/
def sampleMetricKV : InterMetric :=
  ⟨"counter.foo", 1446706800, 42, ["k:v1"], MetricType.counter⟩

/-- A second concrete sample. -/
def sampleMetricB : InterMetric :=
  ⟨"gauge.bar", 1446706801, 7, ["bletch:frotz"], MetricType.gauge⟩

/-- A third concrete sample. -/
def sampleMetricC : InterMetric :=
  ⟨"timer.baz", 1446706802, 9, ["fax:fox"], MetricType.status⟩

/-- A transport oracle that accepts every delivery. -/
def deliverOk : GenericMetrics → Bool := fun _ => true

/-- A transport oracle that rejects every delivery. -/
def deliverFail : GenericMetrics → Bool := fun _ => false

/-!
Go slice semantics, used to examine the `append(metric.Tags, gm.Tags...)`
statement of `convertInterToGeneric`.  A Go slice is a view
(array id, offset, length, capacity) into a backing array held in a
heap; `append` writes in place when spare capacity suffices and
allocates a fresh array otherwise.  The list-based embedding above is
the special case in which no input slice has spare capacity.
-/

/-- The heap of backing arrays: array id to contents. -/
abbrev Heap := List (List String)

/-- A Go slice header: backing array id, offset, length, capacity. -/
structure GoSlice where
  arr : Nat
  off : Nat
  len : Nat
  cap : Nat
deriving DecidableEq

/-- The contents of a backing array. -/
def readArr (h : Heap) (a : Nat) : List String :=
  h.getD a []

/-- The elements a slice sees. -/
def readSlice (h : Heap) (s : GoSlice) : List String :=
  ((readArr h s.arr).drop s.off).take s.len

/-- Writes the values `vs` into `l` starting at index `i`. -/
def writeRange (l : List String) (i : Nat) : List String → List String
  | [] => l
  | v :: vs => writeRange (l.set i v) (i + 1) vs

/-- Go `append(s, xs...)`: writes into the backing array in place when
the capacity suffices (mutating every alias of that array), and copies
into a freshly allocated array otherwise. -/
def goAppend (h : Heap) (s : GoSlice) (xs : List String) : Heap × GoSlice :=
  if s.len + xs.length ≤ s.cap then
    (h.set s.arr (writeRange (readArr h s.arr) (s.off + s.len) xs),
      { s with len := s.len + xs.length })
  else
    (h ++ [readSlice h s ++ xs],
      ⟨h.length, 0, s.len + xs.length, s.len + xs.length⟩)

/-- The tag-slice effect of the loop body of `convertInterToGeneric`
under Go slice semantics: for each sample's tag slice, evaluate
`inTags := append(metric.Tags, gm.Tags...)` followed by
`ParseTagSliceToMap(inTags)`, threading the heap; returns the final
heap and the tag mapping of each produced record. -/
def convertTagsHeap (serverTags : List String) :
    Heap → List GoSlice → Heap × List TagMap
  | h, [] => (h, [])
  | h, s :: ss =>
    let appended := goAppend h s serverTags
    let rest := convertTagsHeap serverTags appended.1 ss
    (rest.1, ParseTagSliceToMap (readSlice appended.1 appended.2) :: rest.2)

/-- Initial heap of the aliasing scenario: one backing array holding
two tag strings. -/
def heapKV : Heap := [["a:b", "x:y"]]

/-- First sample's tag slice: sees only the first element but has
capacity two (as a slice built by `arr[0:1]` has). -/
def tagsSliceShort : GoSlice := ⟨0, 0, 1, 2⟩

/-- Second sample's tag slice: sees both elements of the same backing
array. -/
def tagsSliceLong : GoSlice := ⟨0, 0, 2, 2⟩

theorem chunksOf_nil (b : Nat) : chunksOf b ([] : List α) = [] := by
  rw [chunksOf.eq_def]

theorem chunksOf_cons (b : Nat) (x : α) (xs : List α) :
    chunksOf b (x :: xs) =
      (x :: xs).take b :: chunksOf b ((x :: xs).drop (b.max 1)) := by
  rw [chunksOf.eq_def]

theorem chunksOf_eq_of_ne_nil (b : Nat) (hb : 0 < b) (l : List α)
    (hl : l ≠ []) : chunksOf b l = l.take b :: chunksOf b (l.drop b) := by
  cases l with
  | nil => exact absurd rfl hl
  | cons x xs =>
    rw [chunksOf_cons]
    have : b.max 1 = b := Nat.max_eq_left hb
    rw [this]

theorem chunksOf_join (b : Nat) (hb : 0 < b) (l : List α) :
    (chunksOf b l).flatten = l := by
  suffices H : ∀ n (l : List α), l.length = n → (chunksOf b l).flatten = l from
    H l.length l rfl
  intro n
  induction n using Nat.strong_induction_on with
  | _ n ih =>
    intro l hn
    cases l with
    | nil => simp [chunksOf_nil]
    | cons x xs =>
      rw [chunksOf_eq_of_ne_nil b hb _ (List.cons_ne_nil x xs),
        List.flatten_cons]
      have hdrop : ((x :: xs).drop b).length < n := by
        subst hn
        simp only [List.length_drop, List.length_cons]
        omega
      rw [ih _ hdrop _ rfl, List.take_append_drop]

theorem ceilDiv_of_le (b M : Nat) (_hb : 0 < b) (h1 : 0 < M) (h2 : M ≤ b) :
    (M + b - 1) / b = 1 :=
  Nat.div_eq_of_lt_le (by omega) (by omega)

theorem ceilDiv_step (b M : Nat) (hb : 0 < b) (hM : b < M) :
    (M + b - 1) / b = ((M - b) + b - 1) / b + 1 := by
  have e : M + b - 1 = ((M - b) + b - 1) + b := by omega
  rw [e, Nat.add_div_right _ hb]

theorem chunksOf_length (b : Nat) (hb : 0 < b) (l : List α) (hl : 0 < l.length) :
    (chunksOf b l).length = (l.length + b - 1) / b := by
  suffices H : ∀ n (l : List α), l.length = n → 0 < l.length →
      (chunksOf b l).length = (l.length + b - 1) / b from H l.length l rfl hl
  intro n
  induction n using Nat.strong_induction_on with
  | _ n ih =>
    intro l hn hl
    cases l with
    | nil => simp at hl
    | cons x xs =>
      rw [chunksOf_eq_of_ne_nil b hb _ (List.cons_ne_nil x xs)]
      by_cases hle : (x :: xs).length ≤ b
      · have hdrop : (x :: xs).drop b = [] := List.drop_eq_nil_of_le hle
        rw [hdrop, chunksOf_nil, ceilDiv_of_le b _ hb hl hle]
        rfl
      · have hblt : b < (x :: xs).length := Nat.lt_of_not_le hle
        have hdroplen : ((x :: xs).drop b).length = (x :: xs).length - b := by
          simp [List.length_drop]
        have hdroplt : ((x :: xs).drop b).length < n := by
          subst hn; simp only [List.length_drop, List.length_cons]; omega
        have hdroppos : 0 < ((x :: xs).drop b).length := by omega
        rw [List.length_cons, ih _ hdroplt _ rfl hdroppos, hdroplen,
          ceilDiv_step b _ hb hblt]

theorem chunksOf_getElem? (b : Nat) (hb : 0 < b) (l : List α) (i : Nat)
    (c : List α) (hc : (chunksOf b l)[i]? = some c) :
    c.length = min (l.length - i * b) b := by
  suffices H : ∀ n (l : List α), l.length = n → ∀ i (c : List α),
      (chunksOf b l)[i]? = some c → c.length = min (l.length - i * b) b from
    H l.length l rfl i c hc
  intro n
  induction n using Nat.strong_induction_on with
  | _ n ih =>
    intro l hn i c hc
    cases l with
    | nil => rw [chunksOf_nil] at hc; simp at hc
    | cons x xs =>
      rw [chunksOf_eq_of_ne_nil b hb (x :: xs) (List.cons_ne_nil x xs)] at hc
      cases i with
      | zero =>
        simp only [List.getElem?_cons_zero, Option.some.injEq] at hc
        rw [← hc]
        simp only [List.length_take, Nat.zero_mul, Nat.sub_zero]
        exact Nat.min_comm b (x :: xs).length
      | succ i =>
        rw [List.getElem?_cons_succ] at hc
        have hdroplt : ((x :: xs).drop b).length < n := by
          subst hn
          simp only [List.length_drop, List.length_cons]
          omega
        have := ih _ hdroplt _ rfl i c hc
        rw [this]
        simp only [List.length_drop]
        congr 1
        rw [Nat.succ_mul]
        omega

theorem flushStepCombine_fst (step : DeliveryCall × LogEntry)
    (pr : GenericMetricSink × FlushResult) :
    (flushStepCombine step pr).1 = pr.1 := by
  rcases pr with ⟨gm2, r⟩
  cases r <;> rfl

theorem flushStepCombine_done (step : DeliveryCall × LogEntry)
    (gm2 : GenericMetricSink) (calls : List DeliveryCall)
    (logs : List LogEntry) (err : Option GoError) :
    flushStepCombine step (gm2, FlushResult.done calls logs err) =
      (gm2, FlushResult.done (step.1 :: calls) (step.2 :: logs) err) :=
  rfl

theorem Flush_nil (deliver : GenericMetrics → Bool) (gm : GenericMetricSink)
    (ctx : Ctx) (fuel : Nat) :
    GenericMetricSink.Flush deliver gm ctx fuel [] =
      (gm, FlushResult.done [] [] none) := by
  cases fuel <;> rfl

theorem Flush_fuelOut (deliver : GenericMetrics → Bool) (gm : GenericMetricSink)
    (ctx : Ctx) (x : InterMetric) (xs : List InterMetric) :
    GenericMetricSink.Flush deliver gm ctx 0 (x :: xs) =
      (gm, FlushResult.fuelOut) :=
  rfl

theorem Flush_eq_done (deliver : GenericMetrics → Bool) (gm : GenericMetricSink)
    (ctx : Ctx) (hb : 0 < gm.BatchSize) :
    ∀ (fuel : Nat) (metrics : List InterMetric), metrics.length ≤ fuel →
    GenericMetricSink.Flush deliver gm ctx fuel metrics =
      (gm, FlushResult.done
        ((chunksOf gm.BatchSize.toNat metrics).map
          (fun c => (GenericMetricSink.flushBatch deliver gm c).2.1))
        ((chunksOf gm.BatchSize.toNat metrics).map
          (fun c => (GenericMetricSink.flushBatch deliver gm c).2.2))
        none) := by
  intro fuel
  induction fuel with
  | zero =>
    intro metrics hlen
    have hm : metrics = [] := List.eq_nil_of_length_eq_zero (Nat.le_zero.mp hlen)
    subst hm
    rw [Flush_nil, chunksOf_nil]
    rfl
  | succ f ih =>
    intro metrics hlen
    cases metrics with
    | nil =>
      rw [Flush_nil, chunksOf_nil]
      rfl
    | cons x xs =>
      have hbN : 0 < gm.BatchSize.toNat := by omega
      have hnotneg : ¬ ((if ((x :: xs).length : Int) > gm.BatchSize
          then gm.BatchSize else ((x :: xs).length : Int)) < 0) := by
        by_cases hcase : ((x :: xs).length : Int) > gm.BatchSize
        · rw [if_pos hcase]; omega
        · rw [if_neg hcase]; omega
      have htoNat : (if ((x :: xs).length : Int) > gm.BatchSize
          then gm.BatchSize else ((x :: xs).length : Int)).toNat =
          min (x :: xs).length gm.BatchSize.toNat := by
        by_cases hcase : ((x :: xs).length : Int) > gm.BatchSize
        · rw [if_pos hcase]
          have h1 : gm.BatchSize.toNat ≤ (x :: xs).length := by omega
          omega
        · rw [if_neg hcase]
          omega
      have htake : (x :: xs).take (min (x :: xs).length gm.BatchSize.toNat) =
          (x :: xs).take gm.BatchSize.toNat := by
        rcases Nat.le_total (x :: xs).length gm.BatchSize.toNat with h | h
        · rw [Nat.min_eq_left h, List.take_length (x :: xs),
            List.take_of_length_le h]
        · rw [Nat.min_eq_right h]
      have hdrop : (x :: xs).drop (min (x :: xs).length gm.BatchSize.toNat) =
          (x :: xs).drop gm.BatchSize.toNat := by
        rcases Nat.le_total (x :: xs).length gm.BatchSize.toNat with h | h
        · rw [Nat.min_eq_left h, List.drop_length (x :: xs),
            List.drop_eq_nil_of_le h]
        · rw [Nat.min_eq_right h]
      have hrest : ((x :: xs).drop gm.BatchSize.toNat).length ≤ f := by
        simp only [List.length_drop, List.length_cons]
        simp only [List.length_cons] at hlen
        omega
      rw [GenericMetricSink.Flush]
      simp only [if_neg hnotneg, htoNat, htake, hdrop]
      rw [show (GenericMetricSink.flushBatch deliver gm
        ((x :: xs).take gm.BatchSize.toNat)).1 = gm from rfl]
      rw [ih _ hrest, flushStepCombine_done]
      rw [chunksOf_eq_of_ne_nil gm.BatchSize.toNat hbN (x :: xs)
        (List.cons_ne_nil x xs)]
      simp only [List.map_cons]


theorem tagLookup_cons_pos (p : String × String) (m : TagMap) (k : String)
    (h : p.1 = k) : tagLookup (p :: m) k = some p.2 := by
  simp [tagLookup, List.find?_cons_of_pos, h]

theorem tagLookup_cons_neg (p : String × String) (m : TagMap) (k : String)
    (h : ¬ p.1 = k) : tagLookup (p :: m) k = tagLookup m k := by
  simp only [tagLookup]
  rw [List.find?_cons_of_neg]
  simp [h]

theorem tagLookup_map_update (m : TagMap) (kv : String × String) (k : String)
    (hk : ¬ kv.1 = k) :
    tagLookup (List.map (fun p => if p.1 = kv.1 then (p.1, kv.2) else p) m) k =
      tagLookup m k := by
  induction m with
  | nil => rfl
  | cons p m ih =>
    rw [List.map_cons]
    by_cases hp : p.1 = kv.1
    · rw [if_pos hp]
      have hpk : ¬ p.1 = k := fun h => hk (hp ▸ h)
      rw [tagLookup_cons_neg (p.1, kv.2) _ _ hpk, tagLookup_cons_neg p _ _ hpk]
      exact ih
    · rw [if_neg hp]
      by_cases hpk : p.1 = k
      · rw [tagLookup_cons_pos _ _ _ hpk, tagLookup_cons_pos _ _ _ hpk]
      · rw [tagLookup_cons_neg _ _ _ hpk, tagLookup_cons_neg _ _ _ hpk]
        exact ih

theorem tagLookup_map_update_self (m : TagMap) (kv : String × String)
    (hmem : List.any m (fun p => p.1 = kv.1) = true) :
    tagLookup (List.map (fun p => if p.1 = kv.1 then (p.1, kv.2) else p) m)
      kv.1 = some kv.2 := by
  induction m with
  | nil => simp at hmem
  | cons p m ih =>
    rw [List.map_cons]
    by_cases hp : p.1 = kv.1
    · rw [if_pos hp]
      rw [tagLookup_cons_pos (p.1, kv.2) _ _ hp]
    · rw [if_neg hp]
      rw [tagLookup_cons_neg _ _ _ hp]
      simp only [List.any_cons, Bool.or_eq_true, decide_eq_true_eq] at hmem
      rcases hmem with h | h
      · exact absurd h hp
      · exact ih (by simpa using h)

theorem tagLookup_tagInsert (m : TagMap) (kv : String × String) (k : String) :
    tagLookup (tagInsert m kv) k =
      if kv.1 = k then some kv.2 else tagLookup m k := by
  by_cases hany : List.any m (fun p => p.1 = kv.1)
  · rw [tagInsert, if_pos hany]
    by_cases hk : kv.1 = k
    · rw [if_pos hk, ← hk]
      exact tagLookup_map_update_self m kv hany
    · rw [if_neg hk]
      exact tagLookup_map_update m kv k hk
  · rw [tagInsert, if_neg hany]
    rw [tagLookup, List.find?_append]
    by_cases hk : kv.1 = k
    · rw [if_pos hk]
      have hnone : List.find? (fun p => p.1 = k) m = none := by
        rw [List.find?_eq_none]
        intro p hp
        simp only [decide_eq_true_eq]
        intro hpk
        have : List.any m (fun p => p.1 = kv.1) = true := by
          rw [List.any_eq_true]
          exact ⟨p, hp, by simp [hpk, hk]⟩
        exact hany this
      rw [hnone]
      simp [List.find?, hk]
    · rw [if_neg hk]
      have h1 : List.find? (fun p => p.1 = k) [kv] = none := by
        simp [List.find?, hk]
      rw [h1, tagLookup]
      cases List.find? (fun p => p.1 = k) m <;> rfl

theorem tagLookup_foldl (tags : List String) (acc : TagMap) (k : String) :
    tagLookup (List.foldl (fun m t => tagInsert m (splitFirstColon t)) acc tags) k =
      (specTagValue tags k).orElse (fun _ => tagLookup acc k) := by
  induction tags generalizing acc with
  | nil => rfl
  | cons t ts ih =>
    rw [List.foldl_cons, ih]
    simp only [specTagValue, List.reverse_cons, List.find?_append]
    cases hfind : List.find? (fun s => (splitFirstColon s).1 = k) ts.reverse with
    | some s => rfl
    | none =>
      simp only [Option.none_or]
      rw [tagLookup_tagInsert]
      by_cases hkt : (splitFirstColon t).1 = k
      · rw [if_pos hkt]
        simp [List.find?, hkt]
      · rw [if_neg hkt]
        simp only [List.find?, hkt, decide_False]

theorem tagLookup_ParseTagSliceToMap (tags : List String) (k : String) :
    tagLookup (ParseTagSliceToMap tags) k = specTagValue tags k := by
  rw [ParseTagSliceToMap, tagLookup_foldl]
  cases specTagValue tags k <;> rfl

theorem Flush_fst (deliver : GenericMetrics → Bool) (ctx : Ctx) :
    ∀ (fuel : Nat) (gm : GenericMetricSink) (metrics : List InterMetric),
    (GenericMetricSink.Flush deliver gm ctx fuel metrics).1 = gm := by
  intro fuel
  induction fuel with
  | zero =>
    intro gm metrics
    cases metrics <;> rfl
  | succ f ih =>
    intro gm metrics
    cases metrics with
    | nil => rfl
    | cons x xs =>
      rw [GenericMetricSink.Flush]
      simp only []
      split <;> split
      any_goals rfl
      all_goals (rw [flushStepCombine_fst, ih]; rfl)

theorem flushStepCombine_fuelOut (step : DeliveryCall × LogEntry)
    (pr : GenericMetricSink × FlushResult)
    (h : pr.2 = FlushResult.fuelOut) :
    (flushStepCombine step pr).2 = FlushResult.fuelOut := by
  rcases pr with ⟨gm2, r⟩
  cases r with
  | done calls logs err => simp at h
  | panicked => simp at h
  | fuelOut => rfl

theorem flushStepCombine_calls_mem (step : DeliveryCall × LogEntry)
    (pr : GenericMetricSink × FlushResult) (c : DeliveryCall)
    (h : c ∈ (flushStepCombine step pr).2.calls) :
    c = step.1 ∨ c ∈ pr.2.calls := by
  rcases pr with ⟨gm2, r⟩
  cases r with
  | done calls logs err => exact List.mem_cons.mp h
  | panicked => simp [flushStepCombine, FlushResult.calls] at h
  | fuelOut => simp [flushStepCombine, FlushResult.calls] at h

theorem Flush_ctx_todo (deliver : GenericMetrics → Bool) (ctx0 : Ctx) :
    ∀ (fuel : Nat) (gm : GenericMetricSink) (metrics : List InterMetric)
      (c : DeliveryCall),
    c ∈ ((GenericMetricSink.Flush deliver gm ctx0 fuel metrics).2).calls →
    c.ctx = Ctx.todo := by
  intro fuel
  induction fuel with
  | zero =>
    intro gm metrics c h
    cases metrics with
    | nil => simp [GenericMetricSink.Flush, FlushResult.calls] at h
    | cons x xs => simp [GenericMetricSink.Flush, FlushResult.calls] at h
  | succ f ih =>
    intro gm metrics c h
    cases metrics with
    | nil => simp [GenericMetricSink.Flush, FlushResult.calls] at h
    | cons x xs =>
      rw [GenericMetricSink.Flush] at h
      simp only [] at h
      split at h
      · split at h
        · simp [FlushResult.calls] at h
        · rcases flushStepCombine_calls_mem _ _ _ h with h1 | h1
          · rw [h1]; rfl
          · exact ih _ _ _ h1
      · split at h
        · simp [FlushResult.calls] at h
        · rcases flushStepCombine_calls_mem _ _ _ h with h1 | h1
          · rw [h1]; rfl
          · exact ih _ _ _ h1

theorem Flush_batchSize_zero (deliver : GenericMetrics → Bool) (ctx : Ctx)
    (gm : GenericMetricSink) (hB : gm.BatchSize = 0) (x : InterMetric)
    (xs : List InterMetric) :
    ∀ fuel, (GenericMetricSink.Flush deliver gm ctx fuel (x :: xs)).2 =
      FlushResult.fuelOut := by
  intro fuel
  induction fuel with
  | zero => rfl
  | succ f ih =>
    rw [GenericMetricSink.Flush]
    simp only []
    have hcond : ((x :: xs).length : Int) > gm.BatchSize := by
      rw [hB]
      exact_mod_cast Nat.succ_pos xs.length
    rw [if_pos hcond, hB]
    rw [if_neg (by norm_num : ¬ ((0 : Int) < 0))]
    simp only [Int.toNat_zero, List.take_zero, List.drop_zero]
    exact flushStepCombine_fuelOut _ _ ih

theorem Flush_batchSize_neg (deliver : GenericMetrics → Bool) (ctx : Ctx)
    (gm : GenericMetricSink) (hB : gm.BatchSize < 0) (x : InterMetric)
    (xs : List InterMetric) (fuel : Nat) :
    (GenericMetricSink.Flush deliver gm ctx (fuel + 1) (x :: xs)).2 =
      FlushResult.panicked := by
  rw [GenericMetricSink.Flush]
  simp only []
  have hcond : ((x :: xs).length : Int) > gm.BatchSize := by
    have h1 : (0 : Int) ≤ ((x :: xs).length : Int) := Int.natCast_nonneg _
    omega
  rw [if_pos hcond, if_pos hB]

/-- C9: Flush applied to an empty sample list issues zero delivery calls
and returns nil (not an error), and convert applied to an empty sample
sequence yields a batch with an empty Metrics list whose Environment and
Namespace are still the configured values. -/
theorem claim_C9_empty_input :
    (∀ (deliver : GenericMetrics → Bool) (gm : GenericMetricSink) (ctx : Ctx)
      (fuel : Nat),
      GenericMetricSink.Flush deliver gm ctx fuel [] =
        (gm, FlushResult.done [] [] none)) ∧
    (∀ gm : GenericMetricSink,
      GenericMetricSink.convertInterToGeneric gm [] =
        { Metrics := [], Environment := gm.Environment,
          Namespace := gm.Namespace }) :=
  ⟨Flush_nil, fun _ => rfl⟩

/-- C10: Flush (including the conversion and per-batch delivery it
performs) leaves every field of the sink unchanged for every fuel bound,
oracle and input; FlushOtherSamples is a no-op on the sink; and the only
operation that writes a sink field is Start, which writes only
traceClient and always returns nil. -/
theorem claim_C10_frame :
    (∀ (deliver : GenericMetrics → Bool) (gm : GenericMetricSink) (ctx : Ctx)
      (fuel : Nat) (metrics : List InterMetric),
      (GenericMetricSink.Flush deliver gm ctx fuel metrics).1 = gm) ∧
    (∀ (gm : GenericMetricSink) (ctx : Ctx),
      GenericMetricSink.FlushOtherSamples gm ctx = gm) ∧
    (∀ (gm : GenericMetricSink) (client : TraceClient),
      GenericMetricSink.Start gm client =
        ({ gm with traceClient := some client }, none)) :=
  ⟨fun deliver gm ctx fuel metrics => Flush_fst deliver ctx fuel gm metrics,
    fun _ _ => rfl, fun _ _ => rfl⟩

/-- C7 counterexample: at the spec's own example of an invalid
configuration (a malformed endpoint URL, here together with a
non-positive batch size), the constructor does not return a construction
error: the error component is nil. -/
theorem claim_C7_counterexample :
    (NewGenericMetricSink ⟨0⟩ ⟨0⟩ [] "http ://not a url %%zz" (-5)
      "src" "env" "ns").2 = none :=
  rfl

/-- C7 (amended): the constructor performs no validation at all: for
every configuration, malformed or not, it returns the initialized
adapter holding exactly the given fields (with no trace client yet) and
a nil error; no configuration is ever rejected at construction time. -/
theorem claim_C7_constructor_never_errors
    (log : Logger) (httpClient : HttpClient) (tags : List String)
    (endpoint : String) (batchSize : Int) (source : String)
    (environment : String) (ns : String) :
    NewGenericMetricSink log httpClient tags endpoint batchSize source
        environment ns =
      (⟨log, none, httpClient, tags, endpoint, batchSize, source,
        environment, ns⟩, none) :=
  rfl

/-- C1: for a positive batch size B and a non-empty input, Flush (run
with fuel covering the whole input) partitions the input into
contiguous, order-preserving chunks taken from the front, each of
length min(remaining, B), issues exactly ceil(M/B) delivery calls, and
concatenating the chunks in call order reproduces the input. -/
theorem claim_C1_batch_partition (deliver : GenericMetrics → Bool)
    (gm : GenericMetricSink) (ctx : Ctx) (metrics : List InterMetric)
    (hB : 0 < gm.BatchSize) (hM : 0 < metrics.length) :
    ∃ calls logs,
      GenericMetricSink.Flush deliver gm ctx metrics.length metrics =
        (gm, FlushResult.done calls logs none) ∧
      calls.length =
        (metrics.length + gm.BatchSize.toNat - 1) / gm.BatchSize.toNat ∧
      (calls.map DeliveryCall.batch).flatten = metrics ∧
      ∀ (i : Nat) (c : DeliveryCall), calls[i]? = some c →
        c.batch.length =
          min (metrics.length - i * gm.BatchSize.toNat) gm.BatchSize.toNat := by
  have hbN : 0 < gm.BatchSize.toNat := by omega
  refine ⟨_, _, Flush_eq_done deliver gm ctx hB metrics.length metrics le_rfl,
    ?_, ?_, ?_⟩
  · rw [List.length_map]
    exact chunksOf_length gm.BatchSize.toNat hbN metrics hM
  · have hbatch : ∀ c : List InterMetric,
        ((GenericMetricSink.flushBatch deliver gm c).2.1).batch = c :=
      fun c => rfl
    rw [List.map_map]
    have : (DeliveryCall.batch ∘ fun c =>
        (GenericMetricSink.flushBatch deliver gm c).2.1) = id := by
      funext c
      exact hbatch c
    rw [this, List.map_id]
    exact chunksOf_join gm.BatchSize.toNat hbN metrics
  · intro i c hc
    rw [List.getElem?_map] at hc
    cases hchunk : (chunksOf gm.BatchSize.toNat metrics)[i]? with
    | none => rw [hchunk] at hc; simp at hc
    | some chunk =>
      rw [hchunk] at hc
      simp only [Option.map_some', Option.some.injEq] at hc
      have hlen := chunksOf_getElem? gm.BatchSize.toNat hbN metrics i chunk hchunk
      rw [← hc]
      exact hlen

/-- C2: a delivery failure for one chunk does not halt processing of
the remaining chunks and does not propagate out of Flush: whatever the
transport oracle answers, every chunk of the input is attempted in
order, each outcome is logged (warning level exactly on failure, with
the chunk's sample count), and Flush returns nil once all chunks have
been attempted. -/
theorem claim_C2_failures_logged_not_propagated
    (deliver : GenericMetrics → Bool) (gm : GenericMetricSink) (ctx : Ctx)
    (metrics : List InterMetric) (hB : 0 < gm.BatchSize) :
    ∃ calls logs,
      GenericMetricSink.Flush deliver gm ctx metrics.length metrics =
        (gm, FlushResult.done calls logs none) ∧
      calls.map DeliveryCall.batch = chunksOf gm.BatchSize.toNat metrics ∧
      logs.length = calls.length ∧
      ∀ (i : Nat) (c : DeliveryCall) (entry : LogEntry),
        calls[i]? = some c → logs[i]? = some entry →
        (entry.level = LogLevel.warn ↔ c.ok = false) ∧
        entry.count = c.batch.length := by
  refine ⟨_, _, Flush_eq_done deliver gm ctx hB metrics.length metrics le_rfl,
    ?_, ?_, ?_⟩
  · rw [List.map_map]
    have : (DeliveryCall.batch ∘ fun c =>
        (GenericMetricSink.flushBatch deliver gm c).2.1) = id := by
      funext c
      rfl
    rw [this, List.map_id]
  · rw [List.length_map, List.length_map]
  · intro i c entry hc hentry
    rw [List.getElem?_map] at hc hentry
    cases hchunk : (chunksOf gm.BatchSize.toNat metrics)[i]? with
    | none => rw [hchunk] at hc; simp at hc
    | some chunk =>
      rw [hchunk] at hc hentry
      simp only [Option.map_some', Option.some.injEq] at hc hentry
      rw [← hc, ← hentry]
      simp only [GenericMetricSink.flushBatch]
      cases hd : deliver (GenericMetricSink.convertInterToGeneric gm chunk) with
      | true => simp [hd]
      | false => simp [hd]

theorem claim_C1_batch_partition_witness :
    0 < sampleSink.BatchSize ∧
    0 < ([sampleMetricKV, sampleMetricB, sampleMetricC] : List InterMetric).length ∧
    (∃ calls logs,
      GenericMetricSink.Flush deliverOk sampleSink Ctx.other
          ([sampleMetricKV, sampleMetricB, sampleMetricC] : List InterMetric).length
          [sampleMetricKV, sampleMetricB, sampleMetricC] =
        (sampleSink, FlushResult.done calls logs none) ∧
      calls.length =
        (([sampleMetricKV, sampleMetricB, sampleMetricC] : List InterMetric).length +
          sampleSink.BatchSize.toNat - 1) / sampleSink.BatchSize.toNat ∧
      (calls.map DeliveryCall.batch).flatten =
        [sampleMetricKV, sampleMetricB, sampleMetricC] ∧
      ∀ (i : Nat) (c : DeliveryCall), calls[i]? = some c →
        c.batch.length =
          min (([sampleMetricKV, sampleMetricB, sampleMetricC] : List InterMetric).length -
            i * sampleSink.BatchSize.toNat) sampleSink.BatchSize.toNat) :=
  ⟨by decide, by decide,
    claim_C1_batch_partition deliverOk sampleSink Ctx.other
      [sampleMetricKV, sampleMetricB, sampleMetricC] (by decide) (by decide)⟩

theorem claim_C2_failures_logged_not_propagated_witness :
    0 < sampleSink.BatchSize ∧
    (∃ calls logs,
      GenericMetricSink.Flush deliverFail sampleSink Ctx.todo
          ([sampleMetricKV, sampleMetricB, sampleMetricC] : List InterMetric).length
          [sampleMetricKV, sampleMetricB, sampleMetricC] =
        (sampleSink, FlushResult.done calls logs none) ∧
      calls.map DeliveryCall.batch =
        chunksOf sampleSink.BatchSize.toNat
          [sampleMetricKV, sampleMetricB, sampleMetricC] ∧
      logs.length = calls.length ∧
      ∀ (i : Nat) (c : DeliveryCall) (entry : LogEntry),
        calls[i]? = some c → logs[i]? = some entry →
        (entry.level = LogLevel.warn ↔ c.ok = false) ∧
        entry.count = c.batch.length) :=
  ⟨by decide,
    claim_C2_failures_logged_not_propagated deliverFail sampleSink Ctx.todo
      [sampleMetricKV, sampleMetricB, sampleMetricC] (by decide)⟩

/-- C4: each record's tag mapping is built by parsing the sample's tags
followed by the configured server tags, splitting each string on its
first colon (no colon yields the whole string as key with empty value,
silently), with a later entry overwriting an earlier one on a duplicate
key; in particular a sample tag "k:v1" and a server tag "k:v2" yield
the mapping value v2 for k.
(`samplers.ParseTagSliceToMap` is modelled from the spec.) -/
theorem claim_C4_tag_merge_precedence :
    (∀ (gm : GenericMetricSink) (metrics : List InterMetric) (i : Nat)
        (m : InterMetric) (r : GenericMetric),
        metrics[i]? = some m →
        (GenericMetricSink.convertInterToGeneric gm metrics).Metrics[i]? = some r →
        ∀ k : String, tagLookup r.Tags k = specTagValue (m.Tags ++ gm.Tags) k) ∧
    ((GenericMetricSink.convertInterToGeneric sampleSink [sampleMetricKV]).Metrics.map
      (fun r => tagLookup r.Tags "k") = [some "v2"]) := by
  constructor
  · intro gm metrics i m r hm hr k
    simp only [GenericMetricSink.convertInterToGeneric] at hr
    rw [List.getElem?_map, hm] at hr
    simp only [Option.map_some', Option.some.injEq] at hr
    rw [← hr]
    exact tagLookup_ParseTagSliceToMap (m.Tags ++ gm.Tags) k
  · decide

theorem claim_C4_tag_merge_precedence_witness :
    tagLookup ((GenericMetricSink.convertInterToGeneric sampleSink
        [sampleMetricKV]).Metrics.headD ⟨"", 0, "", 0, []⟩).Tags "k" =
      specTagValue (sampleMetricKV.Tags ++ sampleSink.Tags) "k" :=
  claim_C4_tag_merge_precedence.1 sampleSink [sampleMetricKV] 0 sampleMetricKV
    _ rfl rfl "k"

/-- C5: converting N samples yields exactly N records in input order,
record i carrying the i-th sample's name as Metric, its value as Value,
its timestamp converted to floating point as At, and the configured
source as Source (identical for every record). -/
theorem claim_C5_count_and_fields (gm : GenericMetricSink)
    (metrics : List InterMetric) :
    (GenericMetricSink.convertInterToGeneric gm metrics).Metrics.length =
      metrics.length ∧
    ∀ (i : Nat) (m : InterMetric) (r : GenericMetric),
      metrics[i]? = some m →
      (GenericMetricSink.convertInterToGeneric gm metrics).Metrics[i]? = some r →
      r.Metric = m.Name ∧ r.Value = m.Value ∧
      r.At = float64OfInt64 m.Timestamp ∧ r.Source = gm.Source := by
  constructor
  · exact List.length_map metrics _
  · intro i m r hm hr
    simp only [GenericMetricSink.convertInterToGeneric] at hr
    rw [List.getElem?_map, hm] at hr
    simp only [Option.map_some', Option.some.injEq] at hr
    rw [← hr]
    exact ⟨rfl, rfl, rfl, rfl⟩

theorem claim_C5_count_and_fields_witness :
    (GenericMetricSink.convertInterToGeneric sampleSink
        [sampleMetricKV, sampleMetricB]).Metrics.length =
      ([sampleMetricKV, sampleMetricB] : List InterMetric).length ∧
    (((GenericMetricSink.convertInterToGeneric sampleSink
        [sampleMetricKV, sampleMetricB]).Metrics.headD
        ⟨"", 0, "", 0, []⟩).Metric = sampleMetricKV.Name ∧
      ((GenericMetricSink.convertInterToGeneric sampleSink
        [sampleMetricKV, sampleMetricB]).Metrics.headD
        ⟨"", 0, "", 0, []⟩).Value = sampleMetricKV.Value ∧
      ((GenericMetricSink.convertInterToGeneric sampleSink
        [sampleMetricKV, sampleMetricB]).Metrics.headD
        ⟨"", 0, "", 0, []⟩).At = float64OfInt64 sampleMetricKV.Timestamp ∧
      ((GenericMetricSink.convertInterToGeneric sampleSink
        [sampleMetricKV, sampleMetricB]).Metrics.headD
        ⟨"", 0, "", 0, []⟩).Source = sampleSink.Source) :=
  ⟨(claim_C5_count_and_fields sampleSink [sampleMetricKV, sampleMetricB]).1,
    (claim_C5_count_and_fields sampleSink [sampleMetricKV, sampleMetricB]).2
      0 sampleMetricKV _ rfl rfl⟩

/-- C6 counterexample: flushing one sample with the distinct caller
context `Ctx.other` issues one delivery call whose context is the
freshly created `context.TODO()` value, not the caller's context — the
context argument of Flush is not the one handed to the transport. -/
theorem claim_C6_counterexample :
    ((GenericMetricSink.Flush deliverOk sampleSink Ctx.other 1
        [sampleMetricKV]).2.calls.map DeliveryCall.ctx = [Ctx.todo]) ∧
      Ctx.todo ≠ Ctx.other := by
  constructor
  · rfl
  · decide

/-- C6 (amended): the batching loop does not consume the context
argument of Flush, but it does not thread it to the transport either:
every delivery call hands the transport a fresh `context.TODO()`
context, regardless of the context Flush received. -/
theorem claim_C6_transport_gets_todo_context
    (deliver : GenericMetrics → Bool) (gm : GenericMetricSink) (ctx : Ctx)
    (fuel : Nat) (metrics : List InterMetric) (c : DeliveryCall)
    (hc : c ∈ ((GenericMetricSink.Flush deliver gm ctx fuel metrics).2).calls) :
    c.ctx = Ctx.todo :=
  Flush_ctx_todo deliver ctx fuel gm metrics c hc

theorem claim_C6_transport_gets_todo_context_witness :
    ((GenericMetricSink.flushBatch deliverOk sampleSink
        [sampleMetricKV]).2.1).ctx = Ctx.todo :=
  claim_C6_transport_gets_todo_context deliverOk sampleSink Ctx.other 1
    [sampleMetricKV] _ (by decide)

/-- C3: the code does not handle a non-positive batch size by any
terminating policy: with batch size 0 and a non-empty input the
batching loop makes no progress (the result is `fuelOut` for every
iteration bound, i.e. the loop never finishes), and with a negative
batch size the slice expression `metrics[:batchSize]` raises a
slice-bounds panic on the first iteration. -/
theorem claim_C3_nonpositive_batch_size_hangs :
    (∀ (deliver : GenericMetrics → Bool) (ctx : Ctx) (gm : GenericMetricSink)
      (x : InterMetric) (xs : List InterMetric), gm.BatchSize = 0 →
      ∀ fuel : Nat,
        (GenericMetricSink.Flush deliver gm ctx fuel (x :: xs)).2 =
          FlushResult.fuelOut) ∧
    (∀ (deliver : GenericMetrics → Bool) (ctx : Ctx) (gm : GenericMetricSink)
      (x : InterMetric) (xs : List InterMetric), gm.BatchSize < 0 →
      ∀ fuel : Nat,
        (GenericMetricSink.Flush deliver gm ctx (fuel + 1) (x :: xs)).2 =
          FlushResult.panicked) :=
  ⟨fun deliver ctx gm x xs hB => Flush_batchSize_zero deliver ctx gm hB x xs,
    fun deliver ctx gm x xs hB fuel => Flush_batchSize_neg deliver ctx gm hB x xs fuel⟩

theorem claim_C3_nonpositive_batch_size_hangs_witness :
    ({ sampleSink with BatchSize := 0 } : GenericMetricSink).BatchSize = 0 ∧
    ({ sampleSink with BatchSize := -1 } : GenericMetricSink).BatchSize < 0 ∧
    (GenericMetricSink.Flush deliverOk { sampleSink with BatchSize := 0 }
        Ctx.todo 5 [sampleMetricKV]).2 = FlushResult.fuelOut ∧
    (GenericMetricSink.Flush deliverOk { sampleSink with BatchSize := -1 }
        Ctx.todo 1 [sampleMetricKV]).2 = FlushResult.panicked :=
  ⟨by decide, by decide,
    claim_C3_nonpositive_batch_size_hangs.1 deliverOk Ctx.todo
      { sampleSink with BatchSize := 0 } sampleMetricKV [] (by decide) 5,
    claim_C3_nonpositive_batch_size_hangs.2 deliverOk Ctx.todo
      { sampleSink with BatchSize := -1 } sampleMetricKV [] (by decide) 0⟩

/-- C8: under Go slice semantics the statement
`inTags := append(metric.Tags, gm.Tags...)` of `convertInterToGeneric`
mutates its input when a sample's tag slice has spare capacity: in a
heap where the two samples' tag slices share one backing array and the
first slice has capacity beyond its length, converting with one server
tag overwrites the second sample's visible second tag (originally
"x:y") with the server tag "s:t". -/
theorem claim_C8_convert_mutates_aliased_input :
    readSlice heapKV tagsSliceLong = ["a:b", "x:y"] ∧
    readSlice (convertTagsHeap ["s:t"] heapKV
        [tagsSliceShort, tagsSliceLong]).1 tagsSliceLong = ["a:b", "s:t"] :=
  ⟨rfl, rfl⟩
